import Mathlib

/-!
Verification of the mini-nu concurrent job dispatch coordinator.

The definitions below are a shallow embedding of the Rust sources:

* `Event` / `eventLoop` embed the event loop of `src/src/main.rs` (`main`,
  lines 120-168): a single receive point multiplexing stdin lines,
  end-of-input and the interrupt signal, assigning job ids from a counter
  `i` that starts at 0 and is incremented once per `Event::Line`.
  `threaded/src/main.rs` (`process_input_lines`, lines 138-184) has the
  same id-assignment structure (`current_job = *job_number; *job_number += 1`
  per received line, shutdown events breaking the loop before any further
  line is taken).

* `reportLines` / `runOutputFrom` embed the result-printing match of
  `threaded/src/run.rs` (`line`, lines 19-45) which is also the body of the
  closure submitted by `src/src/main.rs` (lines 128-156): `Ok(String)`
  prints one raw stdout line, `Ok(List)` prints one debug-formatted stdout
  line per element, any other `Ok` value prints one debug-formatted stdout
  line, a conversion error or an evaluation error prints one stderr line.
  Rust's `{:?}` formatting is an external derive, so it enters the model as
  the function parameter `fmtDebug`.

* `ThreadPool` of `threaded/src/thread_pool.rs` (identical copy inside
  `src/src/main.rs`, lines 26-78) becomes the transition system `Step` on
  `PState` further below.
-/

namespace MiniNu

/-- The three event sources of the event loop in `src/src/main.rs`:
`Event::Line` (a stdin line forwarded by the reader thread),
`Event::Interrupt` (sent by the ctrl-c handler), `Event::EOF` (sent by the
reader thread when stdin ends). -/
inductive Event where
  | line (s : String)
  | interrupt
  | eof
deriving DecidableEq, Repr

/-- The event loop of `src/src/main.rs` lines 120-168, as the list of
`(job id, input line)` pairs it submits to the pool.  The counter argument
embeds the mutable `i`: on `Event::Line` the job is submitted with
`job_number = i` and `i` is incremented; `Event::Interrupt` and
`Event::EOF` break the loop (a closed channel, the `[]` case, ends it
too), so nothing after them is ever submitted. -/
def eventLoop : Nat → List Event → List (Nat × String)
  | _, [] => []
  | i, Event.line s :: rest => (i, s) :: eventLoop (i + 1) rest
  | _, Event.interrupt :: _ => []
  | _, Event.eof :: _ => []

/-- The input lines the loop accepts: every line strictly before the first
`Interrupt` or `EOF` event.  This is the spec-side description of "arrival
order", used to compare against `eventLoop`. -/
def linesBeforeStop : List Event → List String
  | [] => []
  | Event.line s :: rest => s :: linesBeforeStop rest
  | Event.interrupt :: _ => []
  | Event.eof :: _ => []

theorem eventLoop_eq_enumFrom (i : Nat) (evs : List Event) :
    eventLoop i evs = (linesBeforeStop evs).enumFrom i := by
  induction evs generalizing i with
  | nil => rfl
  | cons e rest ih =>
    cases e with
    | line s => simp [eventLoop, linesBeforeStop, List.enumFrom, ih]
    | interrupt => rfl
    | eof => rfl

/-- Claim C1: for every run of the event loop the i-th accepted line (0-based)
is submitted with job id i: the submitted ids are exactly
`0, 1, ..., n-1` in order (no id reused, none skipped) and the submitted
inputs are the accepted lines in arrival order. -/
theorem c1_job_ids_arrival_order (evs : List Event) :
    eventLoop 0 evs = (linesBeforeStop evs).enum
    ∧ (eventLoop 0 evs).map Prod.fst = List.range (eventLoop 0 evs).length
    ∧ (eventLoop 0 evs).map Prod.snd = linesBeforeStop evs := by
  have h := eventLoop_eq_enumFrom 0 evs
  refine ⟨h, ?_, ?_⟩
  · rw [h]
    simp [List.enum, List.enum_map_fst, List.range_eq_range']
  · rw [h]
    simp [List.enum, List.enum_map_snd]

theorem eventLoop_append_interrupt (i : Nat) (pre post : List Event)
    (h : ∀ e ∈ pre, ∃ s, e = Event.line s) :
    eventLoop i (pre ++ Event.interrupt :: post) = eventLoop i pre := by
  induction pre generalizing i with
  | nil => rfl
  | cons e rest ih =>
    obtain ⟨s, rfl⟩ := h e (List.mem_cons_self e rest)
    have hrest : ∀ e ∈ rest, ∃ s, e = Event.line s :=
      fun e he => h e (List.mem_cons_of_mem _ he)
    simp [eventLoop, ih (i + 1) hrest]

/-- Claim C7: once the loop processes an `Interrupt`, it stops at once: for
any run whose events are some accepted lines followed by an interrupt, the
submissions equal those of the prefix alone — no line queued after the
interrupt is ever submitted. -/
theorem c7_interrupt_stops_submission (pre post : List Event)
    (h : ∀ e ∈ pre, ∃ s, e = Event.line s) :
    eventLoop 0 (pre ++ Event.interrupt :: post) = eventLoop 0 pre :=
  eventLoop_append_interrupt 0 pre post h

/-- Witness for C7 at a concrete input: one accepted line, then an
interrupt, then a queued line that is never submitted. -/
theorem c7_interrupt_stops_submission_witness :
    eventLoop 0 [Event.line "a", Event.interrupt, Event.line "b"]
      = eventLoop 0 [Event.line "a"] :=
  c7_interrupt_stops_submission [Event.line "a"] [Event.line "b"]
    (by intro e he; simp at he; exact ⟨"a", he⟩)

/-- The shapes of `nu_protocol::Value` that the result-printing match of
`threaded/src/run.rs` distinguishes: `Value::String`, `Value::List`, and
everything else (ints and the remaining variants, all printed with the
debug formatter); `int` is kept separate because `eval_closure` builds
`Value::int(job_number)` for the positional argument. -/
inductive Value where
  | str (s : String)
  | int (n : Int)
  | list (vs : List Value)
  | other (tag : String)

/-- Which stream a report line goes to: `println!` or `eprintln!`. -/
inductive Chan where
  | stdout
  | stderr
deriving DecidableEq, Repr

/-- One printed report line.  Every print in `run.rs` lines 19-45 interpolates
the job number, so the line carries its id as a field next to the text. -/
structure OutLine where
  chan : Chan
  jobId : Nat
  text : String
deriving DecidableEq, Repr

/-- The outcome of one job body as `run.rs` sees it: `eval_closure` returned
`Ok` and `into_value` succeeded (`ok`), `into_value` failed (`convErr`), or
`eval_closure` returned `Err` (`err`). -/
inductive EvalResult where
  | ok (v : Value)
  | convErr (e : String)
  | err (e : String)

/-- The result-printing match of `threaded/src/run.rs` lines 23-44 (the same
match appears in `src/src/main.rs` lines 132-155 and
`threaded/src/main.rs` lines 219-236): a string prints one raw stdout
line, a list prints one debug stdout line per element, any other value
prints one debug stdout line, a conversion error or evaluation error
prints one stderr line.  `fmtDebug` stands for Rust's derived `{:?}`
formatter, external to this repository. -/
def reportLines (fmtDebug : Value → String) (job_number : Nat) (r : EvalResult) :
    List OutLine :=
  match r with
  | EvalResult.ok (Value.str val) =>
      [⟨Chan.stdout, job_number, "Thread " ++ toString job_number ++ ": " ++ val⟩]
  | EvalResult.ok (Value.list vals) =>
      vals.map (fun val =>
        ⟨Chan.stdout, job_number, "Thread " ++ toString job_number ++ ": " ++ fmtDebug val⟩)
  | EvalResult.ok v =>
      [⟨Chan.stdout, job_number, "Thread " ++ toString job_number ++ ": " ++ fmtDebug v⟩]
  | EvalResult.convErr e =>
      [⟨Chan.stderr, job_number,
        "Thread " ++ toString job_number ++ ": Error converting pipeline data: " ++ e⟩]
  | EvalResult.err e =>
      [⟨Chan.stderr, job_number, "Thread " ++ toString job_number ++ ": Error: " ++ e⟩]

/-- The combined report output of a drained run whose job `k + j` ended with
result `rs[j]`: each job contributes the lines of `reportLines`.  Per-id
line counts are invariant under the interleaving of completion order, so
the jobs' contributions are laid out in id order. -/
def runOutputFrom (fmtDebug : Value → String) : Nat → List EvalResult → List OutLine
  | _, [] => []
  | k, r :: rs => reportLines fmtDebug k r ++ runOutputFrom fmtDebug (k + 1) rs

/-- The combined report output of a drained run of `rs.length` jobs with ids
`0, 1, ...` where job `j` ended with result `rs[j]`. -/
def runOutput (fmtDebug : Value → String) (rs : List EvalResult) : List OutLine :=
  runOutputFrom fmtDebug 0 rs

/-- How many lines of `ls` report job id `j`. -/
def idCount (j : Nat) (ls : List OutLine) : Nat :=
  (ls.filter fun l => l.jobId = j).length

/-- How many lines `reportLines` actually emits for one result: one per list
element for a list value, one for everything else. -/
def reportCount : EvalResult → Nat
  | EvalResult.ok (Value.list vs) => vs.length
  | _ => 1

theorem jobId_of_mem_reportLines (fmtDebug : Value → String) (k : Nat)
    (r : EvalResult) (l : OutLine) (h : l ∈ reportLines fmtDebug k r) :
    l.jobId = k := by
  cases r with
  | ok v =>
    cases v with
    | str s => simp [reportLines] at h; subst h; rfl
    | int n => simp [reportLines] at h; subst h; rfl
    | list vs =>
      simp [reportLines, List.mem_map] at h
      obtain ⟨v, _, rfl⟩ := h
      rfl
    | other t => simp [reportLines] at h; subst h; rfl
  | convErr e => simp [reportLines] at h; subst h; rfl
  | err e => simp [reportLines] at h; subst h; rfl

theorem idCount_reportLines_self (fmtDebug : Value → String) (k : Nat)
    (r : EvalResult) : idCount k (reportLines fmtDebug k r) = reportCount r := by
  have hall : ∀ l ∈ reportLines fmtDebug k r, l.jobId = k :=
    fun l hl => jobId_of_mem_reportLines fmtDebug k r l hl
  have hfilter : (reportLines fmtDebug k r).filter (fun l => l.jobId = k)
      = reportLines fmtDebug k r := by
    apply List.filter_eq_self.2
    intro l hl
    simp [hall l hl]
  unfold idCount
  rw [hfilter]
  cases r with
  | ok v => cases v <;> simp [reportLines, reportCount]
  | convErr e => rfl
  | err e => rfl

theorem idCount_reportLines_ne (fmtDebug : Value → String) (k j : Nat)
    (hne : k ≠ j) (r : EvalResult) :
    idCount j (reportLines fmtDebug k r) = 0 := by
  unfold idCount
  rw [List.filter_eq_nil_iff.2, List.length_nil]
  intro l hl
  have := jobId_of_mem_reportLines fmtDebug k r l hl
  simp [this, hne]

theorem jobId_ge_of_mem_runOutputFrom (fmtDebug : Value → String)
    (rs : List EvalResult) (k : Nat) (l : OutLine)
    (h : l ∈ runOutputFrom fmtDebug k rs) : k ≤ l.jobId := by
  induction rs generalizing k with
  | nil => cases h
  | cons r0 rest ih =>
    simp only [runOutputFrom, List.mem_append] at h
    cases h with
    | inl h1 =>
      exact Nat.le_of_eq (jobId_of_mem_reportLines fmtDebug k r0 l h1).symm
    | inr h1 =>
      have := ih (k + 1) h1
      omega

theorem idCount_runOutputFrom (fmtDebug : Value → String) (rs : List EvalResult)
    (k j : Nat) (r : EvalResult) (h : rs.get? j = some r) :
    idCount (k + j) (runOutputFrom fmtDebug k rs) = reportCount r := by
  induction rs generalizing k j with
  | nil => cases h
  | cons r0 rest ih =>
    cases j with
    | zero =>
      have hr : r0 = r := by
        simpa using h
      subst hr
      simp only [Nat.add_zero]
      have hsplit : idCount k (runOutputFrom fmtDebug k (r0 :: rest))
          = idCount k (reportLines fmtDebug k r0)
            + idCount k (runOutputFrom fmtDebug (k + 1) rest) := by
        simp [runOutputFrom, idCount, List.filter_append]
      have hrest : idCount k (runOutputFrom fmtDebug (k + 1) rest) = 0 := by
        unfold idCount
        rw [List.filter_eq_nil_iff.2, List.length_nil]
        intro l hl
        have := jobId_ge_of_mem_runOutputFrom fmtDebug rest (k + 1) l hl
        simp only [decide_eq_true_eq]
        omega
      rw [hsplit, hrest, idCount_reportLines_self, Nat.add_zero]
    | succ j' =>
      have hj : rest.get? j' = some r := by simpa using h
      have hsplit : idCount (k + (j' + 1)) (runOutputFrom fmtDebug k (r0 :: rest))
          = idCount (k + (j' + 1)) (reportLines fmtDebug k r0)
            + idCount (k + (j' + 1)) (runOutputFrom fmtDebug (k + 1) rest) := by
        simp [runOutputFrom, idCount, List.filter_append]
      have hne : k ≠ k + (j' + 1) := by omega
      have hfirst := idCount_reportLines_ne fmtDebug k (k + (j' + 1)) hne r0
      have hrec := ih (k + 1) j' hj
      have harith : k + (j' + 1) = (k + 1) + j' := by omega
      rw [hsplit, hfirst, harith, hrec]
      omega

/-- Counterexample to claim C8 as stated: a drained run of one job whose
result is the empty list reports id 0 zero times, not exactly once — the
`Value::List` arm prints one line per element, so an empty list drops the
id from the combined output. -/
theorem c8_empty_list_drops_id_cex :
    idCount 0 (runOutput (fun _ => "") [EvalResult.ok (Value.list [])]) ≠ 1 := by
  decide

/-- Claim C8 (amended): in a drained run of `rs.length` jobs, job id `j`
appears in the combined stdout/stderr output exactly `reportCount rs[j]`
times: exactly once when its result is a string, a non-list value, an
evaluation error or a conversion error, and once per element when its
result is a list (so an empty list drops the id and a multi-element list
repeats it). -/
theorem c8_exactly_once_amended (fmtDebug : Value → String) (rs : List EvalResult)
    (j : Nat) (r : EvalResult) (h : rs.get? j = some r) :
    idCount j (runOutput fmtDebug rs) = reportCount r := by
  have := idCount_runOutputFrom fmtDebug rs 0 j r h
  simpa [runOutput] using this

/-- Witness for the amended C8 at a concrete input: a two-job run (one
failed, one completed string) reports id 1 exactly once. -/
theorem c8_exactly_once_amended_witness :
    idCount 1 (runOutput (fun _ => "")
        [EvalResult.err "boom", EvalResult.ok (Value.str "done")])
      = reportCount (EvalResult.ok (Value.str "done")) :=
  c8_exactly_once_amended (fun _ => "")
    [EvalResult.err "boom", EvalResult.ok (Value.str "done")] 1
    (EvalResult.ok (Value.str "done")) rfl

/-- Counterexample to claim C9 as stated: a job that completes with a
two-element list value emits two stdout lines, not exactly one. -/
theorem c9_list_multi_line_cex :
    (reportLines (fun _ => "d") 1
        (EvalResult.ok (Value.list [Value.int 1, Value.int 2]))).length ≠ 1 := by
  decide

/-- Claim C9 (amended): a job completing with a string value emits exactly
one stdout line `"Thread <id>: <value>"` carrying the raw string (not a
debug form); a job completing with any other non-list value — the catch-all
arm of the match, covering ints and every remaining value shape — emits
exactly one stdout line with the debug form; a job completing with a list
emits one debug stdout line per element; a failed job emits exactly one
stderr line `"Thread <id>: Error: <details>"`. -/
theorem c9_output_format_amended (fmtDebug : Value → String) (j : Nat)
    (s e : String) (vs : List Value) (n : Int) (tag : String) :
    reportLines fmtDebug j (EvalResult.ok (Value.str s))
      = [⟨Chan.stdout, j, "Thread " ++ toString j ++ ": " ++ s⟩]
    ∧ reportLines fmtDebug j (EvalResult.err e)
      = [⟨Chan.stderr, j, "Thread " ++ toString j ++ ": Error: " ++ e⟩]
    ∧ reportLines fmtDebug j (EvalResult.ok (Value.list vs))
      = vs.map (fun v =>
          ⟨Chan.stdout, j, "Thread " ++ toString j ++ ": " ++ fmtDebug v⟩)
    ∧ reportLines fmtDebug j (EvalResult.ok (Value.int n))
      = [⟨Chan.stdout, j, "Thread " ++ toString j ++ ": " ++ fmtDebug (Value.int n)⟩]
    ∧ reportLines fmtDebug j (EvalResult.ok (Value.other tag))
      = [⟨Chan.stdout, j,
          "Thread " ++ toString j ++ ": " ++ fmtDebug (Value.other tag)⟩]
    ∧ (∀ v : Value, (∀ s0, v ≠ Value.str s0) → (∀ vs0, v ≠ Value.list vs0) →
        reportLines fmtDebug j (EvalResult.ok v)
          = [⟨Chan.stdout, j, "Thread " ++ toString j ++ ": " ++ fmtDebug v⟩])
    ∧ (reportLines fmtDebug j (EvalResult.ok (Value.str s))).length = 1
    ∧ (reportLines fmtDebug j (EvalResult.err e)).length = 1 := by
  refine ⟨rfl, rfl, rfl, rfl, rfl, ?_, rfl, rfl⟩
  intro v hs hl
  cases v with
  | str s0 => exact absurd rfl (hs s0)
  | int m => rfl
  | list vs0 => exact absurd rfl (hl vs0)
  | other t0 => rfl

/-- The kill-and-remove sweep of the ctrl-c handler in
`threaded/src/main.rs` lines 276-302: the job ids are collected from the
table first, then `kill_and_remove` is called on each in order; the first
error is remembered (`if first_error.is_ok() { first_error = Err(err) }`)
and the loop continues over the remaining ids regardless.
`killAndRemove` stands for `nu_protocol`'s `Jobs::kill_and_remove`,
external to this repository; the function returns the final `first_error`
together with the list of ids on which `kill_and_remove` was invoked, in
order. -/
def sweepGo (killAndRemove : Nat → Except String Unit)
    (firstError : Except String Unit) :
    List Nat → Except String Unit × List Nat
  | [] => (firstError, [])
  | j :: rest =>
      let fe : Except String Unit :=
        match killAndRemove j with
        | Except.error e =>
            match firstError with
            | Except.ok _ => Except.error e
            | Except.error e0 => Except.error e0
        | Except.ok _ => firstError
      let r := sweepGo killAndRemove fe rest
      (r.1, j :: r.2)

/-- The whole sweep, started with `first_error = Ok(())`. -/
def cancelAllSweep (killAndRemove : Nat → Except String Unit) (ids : List Nat) :
    Except String Unit × List Nat :=
  sweepGo killAndRemove (Except.ok ()) ids

/-- The first failure among the cancellations, in sweep order: the spec-side
description of "returns the first error encountered". -/
def firstFailure (killAndRemove : Nat → Except String Unit) :
    List Nat → Except String Unit
  | [] => Except.ok ()
  | j :: rest =>
      match killAndRemove j with
      | Except.error e => Except.error e
      | Except.ok _ => firstFailure killAndRemove rest

theorem sweepGo_spec (killAndRemove : Nat → Except String Unit)
    (fe : Except String Unit) (ids : List Nat) :
    (sweepGo killAndRemove fe ids).2 = ids
    ∧ (sweepGo killAndRemove fe ids).1
      = (match fe with
         | Except.error e => Except.error e
         | Except.ok _ => firstFailure killAndRemove ids) := by
  induction ids generalizing fe with
  | nil =>
    refine ⟨rfl, ?_⟩
    cases fe with
    | ok u => cases u; rfl
    | error e => rfl
  | cons j rest ih =>
    cases fe with
    | ok u =>
      cases hk : killAndRemove j with
      | ok v =>
        have := ih (Except.ok v)
        simp [sweepGo, firstFailure, hk, (ih (Except.ok ())).1,
          (ih (Except.ok ())).2]
      | error e =>
        simp [sweepGo, firstFailure, hk, (ih (Except.error e)).1,
          (ih (Except.error e)).2]
    | error e0 =>
      cases hk : killAndRemove j with
      | ok v =>
        simp [sweepGo, hk, (ih (Except.error e0)).1, (ih (Except.error e0)).2]
      | error e =>
        simp [sweepGo, hk, (ih (Except.error e0)).1, (ih (Except.error e0)).2]

/-- Claim C6: for every registry snapshot and every behaviour of the
individual cancellations, the interrupt handler's sweep attempts
`kill_and_remove` on every collected id (a failing entry never aborts the
loop over the remaining ones), and the value it returns is the first
error encountered in sweep order (or success when every cancellation
succeeded). -/
theorem c6_cancel_sweep_first_error (killAndRemove : Nat → Except String Unit)
    (ids : List Nat) :
    (cancelAllSweep killAndRemove ids).2 = ids
    ∧ (cancelAllSweep killAndRemove ids).1 = firstFailure killAndRemove ids := by
  have h := sweepGo_spec killAndRemove (Except.ok ()) ids
  exact ⟨h.1, h.2⟩

/-- One required positional parameter of a parsed closure
(`nu_protocol::Signature::required_positional` entries), reduced to the
field `eval_closure` reads: `var_id`. -/
structure PositionalArg where
  var_id : Option Nat
deriving DecidableEq, Repr

/-- The signature of a parsed closure, reduced to `required_positional`. -/
structure ClosureSignature where
  required_positional : List PositionalArg
deriving DecidableEq, Repr

/-- The block a closure points at, reduced to its signature. -/
structure BlockModel where
  signature : ClosureSignature
deriving DecidableEq, Repr

/-- The one `ShellError` variant `eval_closure` itself builds, plus a
generic variant for errors coming out of block evaluation. -/
inductive ShellErrorModel where
  | nushellFailedSpanned (msg : String) (label : String)
  | other (msg : String)

/-- What a call to `eval_closure` does: return a value or error, or panic
(the `.unwrap()` on a missing `var_id`, and out-of-bounds indexing, do not
return at all). -/
inductive ClosureCallResult where
  | returned (r : Except ShellErrorModel Value)
  | panicked

/-- `eval_closure` of `threaded/src/run.rs` lines 48-75 (the same function
appears in `src/src/main.rs` lines 177-205 and `threaded/src/main.rs`
lines 100-126): if the closure's `required_positional` count is not
exactly 1, return `ShellError::NushellFailedSpanned` without touching the
block; otherwise bind the single positional's `var_id` (a panicking
`.unwrap()` if absent) to `Value::int(job_number)` on the stack and run
`eval_block_with_early_return` with the caller's pipeline `input`.
`evalBlockWithEarlyReturn` stands for the external nu engine evaluator;
`stack` is the list of variable bindings, `add_var` prepends. -/
def evalClosure
    (evalBlockWithEarlyReturn :
      List (Nat × Value) → String → Except ShellErrorModel Value)
    (block : BlockModel) (stack : List (Nat × Value)) (input : String)
    (job_number : Nat) : ClosureCallResult :=
  if block.signature.required_positional.length ≠ 1 then
    ClosureCallResult.returned (Except.error (ShellErrorModel.nushellFailedSpanned
      "Closure must accept exactly one argument"
      ("Found " ++ toString block.signature.required_positional.length
        ++ " arguments, expected 1")))
  else
    match block.signature.required_positional.head? with
    | none => ClosureCallResult.panicked
    | some arg =>
        match arg.var_id with
        | none => ClosureCallResult.panicked
        | some v =>
            ClosureCallResult.returned
              (evalBlockWithEarlyReturn
                ((v, Value.int (Int.ofNat job_number)) :: stack) input)

/-- Claim C10: `eval_closure` returns the `NushellFailedSpanned` arity error,
without evaluating the block (the result does not depend on the
evaluator), exactly when the closure's required positional count is not
1; with exactly one positional that has a variable id, it binds that
variable to the job number as an integer value and runs the block with
the caller's pipeline input (the input line is never bound to the
positional), and any error it then returns is the evaluator's own. -/
theorem c10_eval_closure_arity
    (eb : List (Nat × Value) → String → Except ShellErrorModel Value)
    (block : BlockModel) (stack : List (Nat × Value)) (input : String)
    (j : Nat) :
    (block.signature.required_positional.length ≠ 1 →
      evalClosure eb block stack input j
        = ClosureCallResult.returned (Except.error
            (ShellErrorModel.nushellFailedSpanned
              "Closure must accept exactly one argument"
              ("Found " ++ toString block.signature.required_positional.length
                ++ " arguments, expected 1"))))
    ∧ (∀ arg v, block.signature.required_positional = [arg] →
        arg.var_id = some v →
        evalClosure eb block stack input j
          = ClosureCallResult.returned
              (eb ((v, Value.int (Int.ofNat j)) :: stack) input))
    ∧ (∀ m l, evalClosure eb block stack input j
          = ClosureCallResult.returned (Except.error
              (ShellErrorModel.nushellFailedSpanned m l)) →
        block.signature.required_positional.length ≠ 1
        ∨ (∃ arg v, block.signature.required_positional = [arg]
            ∧ arg.var_id = some v
            ∧ eb ((v, Value.int (Int.ofNat j)) :: stack) input
              = Except.error (ShellErrorModel.nushellFailedSpanned m l))) := by
  refine ⟨?_, ?_, ?_⟩
  · intro hlen
    simp [evalClosure, hlen]
  · intro arg v harg hv
    have hlen : ¬ block.signature.required_positional.length ≠ 1 := by
      simp [harg]
    simp [evalClosure, hlen, harg, hv]
  · intro m l hres
    by_cases hlen : block.signature.required_positional.length = 1
    · right
      match hpos : block.signature.required_positional, hlen with
      | [arg], _ =>
        cases hv : arg.var_id with
        | none =>
          rw [evalClosure, if_neg (by simp [hpos])] at hres
          simp [hpos, hv] at hres
        | some v =>
          rw [evalClosure, if_neg (by simp [hpos])] at hres
          simp only [hpos, List.head?, hv] at hres
          exact ⟨arg, v, rfl, hv, by injection hres⟩
    · exact Or.inl hlen

/-- Witness for C10 at concrete inputs: a zero-positional closure returns
the arity error, and a one-positional closure with variable id 5 runs the
evaluator with that variable bound to `Value::int(7)` and the pipeline
input passed through. -/
theorem c10_eval_closure_arity_witness :
    evalClosure (fun _ _ => Except.ok (Value.str "out"))
        ⟨⟨[]⟩⟩ [] "line" 0
      = ClosureCallResult.returned (Except.error
          (ShellErrorModel.nushellFailedSpanned
            "Closure must accept exactly one argument"
            "Found 0 arguments, expected 1"))
    ∧ evalClosure (fun _ _ => Except.ok (Value.str "out"))
        ⟨⟨[⟨some 5⟩]⟩⟩ [] "line" 7
      = ClosureCallResult.returned
          ((fun (_ : List (Nat × Value)) (_ : String) =>
              Except.ok (Value.str "out")) [(5, Value.int (Int.ofNat 7))] "line") :=
  ⟨(c10_eval_closure_arity (fun _ _ => Except.ok (Value.str "out"))
      ⟨⟨[]⟩⟩ [] "line" 0).1 (by decide),
   (c10_eval_closure_arity (fun _ _ => Except.ok (Value.str "out"))
      ⟨⟨[⟨some 5⟩]⟩⟩ [] "line" 7).2.1 ⟨some 5⟩ 5 rfl rfl⟩

/-- The observable actions of `process_job` in `threaded/src/main.rs` lines
188-243, in program order: `jobs.add_job` (line 203), the body evaluation
via `eval_closure` (line 216), the result printing (lines 219-236), and
`jobs.remove_job` (line 241). -/
inductive JobAction where
  | addJob
  | runBody
  | printLine (l : OutLine)
  | removeJob
deriving DecidableEq, Repr

/-- How the body evaluation of one `process_job` call ends: it returns a
result (`normal`, covering `Ok` and `Err`), or it panics and unwinds out
of `process_job` (the panic is caught further out, by `spawn_blocking`). -/
inductive JobBodyOutcome where
  | normal (r : EvalResult)
  | panicked

/-- The action trace of `process_job` (`threaded/src/main.rs` lines 188-243)
for one job: the registry entry is added, the body runs, and — only when
the body returns — the result lines are printed and the entry is removed.
A panic unwinds past lines 219-242, so neither printing nor
`jobs.remove_job` happens on that path (there is no unwind guard in the
function). -/
def processJob (fmtDebug : Value → String) (job_number : Nat)
    (outcome : JobBodyOutcome) : List JobAction :=
  JobAction.addJob :: JobAction.runBody ::
    (match outcome with
     | JobBodyOutcome.panicked => []
     | JobBodyOutcome.normal r =>
         (reportLines fmtDebug job_number r).map JobAction.printLine
           ++ [JobAction.removeJob])

/-- Whether the job's registry entry is present after a prefix of actions:
`add_job` puts it in, `remove_job` takes it out. -/
def registryAfter (actions : List JobAction) : Bool :=
  actions.foldl (fun b a =>
    match a with
    | JobAction.addJob => true
    | JobAction.removeJob => false
    | _ => b) false

/-- Evidence for claim C3's failure on the code (evaluated at a concrete
job): the entry is added before the body runs in every case, and it is
removed after a body that returns a value or an error — but after a body
that panics the trace contains no `remove_job`, so the registry keeps an
entry for a job that is no longer running. -/
theorem c3_registry_panic_leak :
    registryAfter (processJob (fun _ => "") 7 JobBodyOutcome.panicked) = true
    ∧ registryAfter (processJob (fun _ => "") 7
        (JobBodyOutcome.normal (EvalResult.err "boom"))) = false
    ∧ registryAfter (processJob (fun _ => "") 7
        (JobBodyOutcome.normal (EvalResult.ok (Value.str "done")))) = false
    ∧ (processJob (fun _ => "") 7 JobBodyOutcome.panicked).head?
      = some JobAction.addJob
    ∧ (processJob (fun _ => "") 7 JobBodyOutcome.panicked).count
        JobAction.removeJob = 0
    ∧ (processJob (fun _ => "") 7
        (JobBodyOutcome.normal (EvalResult.err "boom"))).count
        JobAction.removeJob = 1 :=
  ⟨rfl, rfl, rfl, rfl, rfl, rfl⟩

/-- The program counter of one pool worker thread
(`threaded/src/thread_pool.rs` lines 22-33): blocked in `rx.recv()`
(`idle`); returned from `recv` but not yet at the `fetch_add` (`gotJob`);
past the `fetch_add`, running the job body (`running`); past a
`fetch_sub` that returned 1, about to lock and `notify_all`
(`notifying`); unwound by a panic in the job body — the `while let` loop
is gone and the thread is no longer receiving (`dead`). -/
inductive WPc where
  | idle
  | gotJob
  | running
  | notifying
  | dead
deriving DecidableEq, Repr

/-- The program counter of the main thread around `wait_for_completion`
(`threaded/src/thread_pool.rs` lines 50-56): still in the event loop,
submitting (`submitting`); holding the completion lock, about to load
`active_count` (`locked`); blocked in `cvar.wait` with the lock released
(`waiting`); woken, reacquiring the lock (`woken`); returned from
`wait_for_completion` (`returned`). -/
inductive MPc where
  | submitting
  | locked
  | waiting
  | woken
  | returned
deriving DecidableEq, Repr

/-- A state of the pool: the workers' program counters, the
`active_count` atomic, how many submissions the event loop still intends
(`toSubmit`), how many sends have completed (`submitted`), how many job
bodies have finished normally (`completed`), and the main thread's
counter. -/
structure PState where
  workers : List WPc
  active : Nat
  toSubmit : Nat
  submitted : Nat
  completed : Nat
  waiter : MPc
deriving DecidableEq, Repr

/-- One interleaved step of the pool, from `threaded/src/thread_pool.rs`
(the identical `ThreadPool` inside `src/src/main.rs` lines 26-78):

* `execute`: `execute` sends on the zero-capacity channel (line 47 /
  line 13 `bounded(0)`), which completes only when an idle worker's
  `recv` takes the job — the rendezvous is one atomic handoff and there
  is no queue;
* `enter`: the worker's `fetch_add(1)` (line 24);
* `finishLast` / `finishMore`: the job body returns and the worker's
  `fetch_sub(1)` (line 26) returns 1 (enter the notify branch) or not
  (back to `recv`);
* `jobFault`: the job body panics (line 25 `job()` has no unwind guard):
  the worker thread unwinds out of its loop without ever reaching the
  `fetch_sub`;
* `notifyAll`: the notifying worker takes the completion lock (held by
  nobody — the waiter holds it exactly in `locked`), calls
  `cvar.notify_all()` and drops it (lines 27-30): a waiter blocked in
  `cvar.wait` becomes woken;
* `callWait`: the main thread, all submissions done, enters
  `wait_for_completion` and takes the lock (line 52);
* `checkBusy` / `checkIdle`: the load of `active_count` under the lock
  (line 53): positive means `cvar.wait` (releasing the lock), zero means
  the loop exits and the function returns (releasing the lock);
* `wakeSpurious`: `Condvar::wait` may also wake spuriously;
* `reacquire`: a woken waiter reacquires the lock and re-checks. -/
inductive Step : PState → PState → Prop where
  | execute (s : PState) (i : Nat) :
      s.waiter = MPc.submitting → 0 < s.toSubmit →
      s.workers.get? i = some WPc.idle →
      Step s { s with workers := s.workers.set i WPc.gotJob,
                      toSubmit := s.toSubmit - 1,
                      submitted := s.submitted + 1 }
  | enter (s : PState) (i : Nat) :
      s.workers.get? i = some WPc.gotJob →
      Step s { s with workers := s.workers.set i WPc.running,
                      active := s.active + 1 }
  | finishLast (s : PState) (i : Nat) :
      s.workers.get? i = some WPc.running → s.active = 1 →
      Step s { s with workers := s.workers.set i WPc.notifying,
                      active := s.active - 1,
                      completed := s.completed + 1 }
  | finishMore (s : PState) (i : Nat) :
      s.workers.get? i = some WPc.running → s.active ≠ 1 →
      Step s { s with workers := s.workers.set i WPc.idle,
                      active := s.active - 1,
                      completed := s.completed + 1 }
  | jobFault (s : PState) (i : Nat) :
      s.workers.get? i = some WPc.running →
      Step s { s with workers := s.workers.set i WPc.dead }
  | notifyAll (s : PState) (i : Nat) :
      s.workers.get? i = some WPc.notifying → s.waiter ≠ MPc.locked →
      Step s { s with workers := s.workers.set i WPc.idle,
                      waiter := if s.waiter = MPc.waiting then MPc.woken
                                else s.waiter }
  | callWait (s : PState) :
      s.waiter = MPc.submitting → s.toSubmit = 0 →
      Step s { s with waiter := MPc.locked }
  | checkBusy (s : PState) :
      s.waiter = MPc.locked → 0 < s.active →
      Step s { s with waiter := MPc.waiting }
  | checkIdle (s : PState) :
      s.waiter = MPc.locked → s.active = 0 →
      Step s { s with waiter := MPc.returned }
  | wakeSpurious (s : PState) :
      s.waiter = MPc.waiting →
      Step s { s with waiter := MPc.woken }
  | reacquire (s : PState) :
      s.waiter = MPc.woken →
      Step s { s with waiter := MPc.locked }

/-- Zero or more interleaved steps. -/
inductive Steps : PState → PState → Prop where
  | refl (s : PState) : Steps s s
  | tail {s t u : PState} : Steps s t → Step t u → Steps s u

/-- The state right after `ThreadPool::new(n)` with `k` submissions ahead:
`n` workers blocked in `recv`, `active_count = 0`, the main thread
submitting. -/
def initState (n k : Nat) : PState :=
  { workers := List.replicate n WPc.idle, active := 0, toSubmit := k,
    submitted := 0, completed := 0, waiter := MPc.submitting }

/-- States a pool of `n` workers with `k` submissions can reach. -/
def Reach (n k : Nat) (s : PState) : Prop :=
  Steps (initState n k) s

/-- How many workers sit at program counter `p`. -/
def countPc (p : WPc) : List WPc → Nat
  | [] => 0
  | q :: l => (if q = p then 1 else 0) + countPc p l

theorem countPc_set (b c : WPc) {l : List WPc} {i : Nat} {a : WPc}
    (h : l.get? i = some a) :
    countPc c (l.set i b) + (if a = c then 1 else 0)
      = countPc c l + (if b = c then 1 else 0) := by
  induction l generalizing i with
  | nil => cases h
  | cons q l ih =>
    cases i with
    | zero =>
      have hq : q = a := by simpa using h
      subst hq
      by_cases hqc : q = c <;> by_cases hbc : b = c <;>
        simp [countPc, hqc, hbc] <;> omega
    | succ i =>
      have hl : l.get? i = some a := by simpa using h
      have := ih hl
      by_cases hqc : q = c <;> simp [countPc, hqc] <;> omega

theorem countPc_le_length (p : WPc) (l : List WPc) : countPc p l ≤ l.length := by
  induction l with
  | nil => simp [countPc]
  | cons q l ih =>
    by_cases hq : q = p <;> simp [countPc, hq] <;> omega

theorem countPc_pair_le_length {a b : WPc} (hab : a ≠ b) (l : List WPc) :
    countPc a l + countPc b l ≤ l.length := by
  induction l with
  | nil => simp [countPc]
  | cons q l ih =>
    have hba : ¬ b = a := fun hx => hab hx.symm
    by_cases hqa : q = a
    · subst hqa
      simp [countPc, hab, hba]
      omega
    · by_cases hqb : q = b
      · subst hqb
        simp [countPc, hqa, hba]
        omega
      · simp [countPc, hqa, hqb]
        omega

theorem mem_of_countPc_pos {a : WPc} {l : List WPc} (h : 0 < countPc a l) :
    a ∈ l := by
  induction l with
  | nil => simp [countPc] at h
  | cons q l ih =>
    by_cases hq : q = a
    · rw [hq]; exact List.mem_cons_self a l
    · simp [countPc, hq] at h
      exact List.mem_cons_of_mem q (ih h)

/-- The inductive invariant of the pool: the worker list keeps its length
(`capacity` is fixed at construction); `active_count` counts exactly the
workers past their `fetch_add` and before their `fetch_sub` — those
running a body plus those whose body panicked (the panicking worker never
reaches the `fetch_sub`); every completed send is accounted for by a
normal completion or by a worker still holding the job; and whenever the
waiter is blocked in `cvar.wait` with `active_count = 0`, some worker is
still on its way to `notify_all`, so the wakeup is not lost. -/
def Inv (n : Nat) (s : PState) : Prop :=
  s.workers.length = n
  ∧ s.active = countPc WPc.running s.workers + countPc WPc.dead s.workers
  ∧ s.submitted = s.completed + countPc WPc.gotJob s.workers
      + countPc WPc.running s.workers + countPc WPc.dead s.workers
  ∧ (s.waiter = MPc.waiting → s.active = 0 →
      0 < countPc WPc.notifying s.workers)

theorem countPc_replicate (p q : WPc) (n : Nat) :
    countPc p (List.replicate n q) = if q = p then n else 0 := by
  induction n with
  | zero => simp [countPc]
  | succ n ih =>
    simp only [List.replicate, countPc, ih]
    by_cases hq : q = p <;> simp [hq] <;> omega

theorem inv_init (n k : Nat) : Inv n (initState n k) := by
  refine ⟨by simp [initState], ?_, ?_, ?_⟩ <;>
    simp [initState, countPc_replicate]

theorem inv_step {n : Nat} {s s' : PState} (hinv : Inv n s)
    (hstep : Step s s') : Inv n s' := by
  obtain ⟨hlen, hact, hsub, hnot⟩ := hinv
  cases hstep with
  | execute i hw hts hidle =>
    have h1 := countPc_set WPc.gotJob WPc.gotJob hidle
    have h2 := countPc_set WPc.gotJob WPc.running hidle
    have h3 := countPc_set WPc.gotJob WPc.dead hidle
    simp at h1 h2 h3
    refine ⟨?_, ?_, ?_, ?_⟩
    · dsimp only
      rw [List.length_set]
      exact hlen
    · dsimp only
      omega
    · dsimp only
      omega
    · dsimp only
      intro hw'
      rw [hw] at hw'
      simp at hw'
  | enter i hgot =>
    have h1 := countPc_set WPc.running WPc.gotJob hgot
    have h2 := countPc_set WPc.running WPc.running hgot
    have h3 := countPc_set WPc.running WPc.dead hgot
    simp at h1 h2 h3
    refine ⟨?_, ?_, ?_, ?_⟩
    · dsimp only
      rw [List.length_set]
      exact hlen
    · dsimp only
      omega
    · dsimp only
      omega
    · dsimp only
      intro _ ha'
      omega
  | finishLast i hrun hone =>
    have h1 := countPc_set WPc.notifying WPc.gotJob hrun
    have h2 := countPc_set WPc.notifying WPc.running hrun
    have h3 := countPc_set WPc.notifying WPc.dead hrun
    have h4 := countPc_set WPc.notifying WPc.notifying hrun
    simp at h1 h2 h3 h4
    refine ⟨?_, ?_, ?_, ?_⟩
    · dsimp only
      rw [List.length_set]
      exact hlen
    · dsimp only
      omega
    · dsimp only
      omega
    · dsimp only
      intro _ _
      omega
  | finishMore i hrun hne1 =>
    have h1 := countPc_set WPc.idle WPc.gotJob hrun
    have h2 := countPc_set WPc.idle WPc.running hrun
    have h3 := countPc_set WPc.idle WPc.dead hrun
    simp at h1 h2 h3
    refine ⟨?_, ?_, ?_, ?_⟩
    · dsimp only
      rw [List.length_set]
      exact hlen
    · dsimp only
      omega
    · dsimp only
      omega
    · dsimp only
      intro _ ha'
      omega
  | jobFault i hrun =>
    have h1 := countPc_set WPc.dead WPc.gotJob hrun
    have h2 := countPc_set WPc.dead WPc.running hrun
    have h3 := countPc_set WPc.dead WPc.dead hrun
    have h4 := countPc_set WPc.dead WPc.notifying hrun
    simp at h1 h2 h3 h4
    refine ⟨?_, ?_, ?_, ?_⟩
    · dsimp only
      rw [List.length_set]
      exact hlen
    · dsimp only
      omega
    · dsimp only
      omega
    · dsimp only
      intro hw' ha'
      have := hnot hw' ha'
      omega
  | notifyAll i hnotif hwl =>
    have h1 := countPc_set WPc.idle WPc.gotJob hnotif
    have h2 := countPc_set WPc.idle WPc.running hnotif
    have h3 := countPc_set WPc.idle WPc.dead hnotif
    simp at h1 h2 h3
    refine ⟨?_, ?_, ?_, ?_⟩
    · dsimp only
      rw [List.length_set]
      exact hlen
    · dsimp only
      omega
    · dsimp only
      omega
    · dsimp only
      intro hw' _
      by_cases hsw : s.waiter = MPc.waiting <;> simp [hsw] at hw'
  | callWait hw hts =>
    refine ⟨hlen, hact, hsub, ?_⟩
    dsimp only
    intro hw' _
    simp at hw'
  | checkBusy hw hpos =>
    refine ⟨hlen, hact, hsub, ?_⟩
    dsimp only
    intro _ ha'
    omega
  | checkIdle hw hzero =>
    refine ⟨hlen, hact, hsub, ?_⟩
    dsimp only
    intro hw' _
    simp at hw'
  | wakeSpurious hw =>
    refine ⟨hlen, hact, hsub, ?_⟩
    dsimp only
    intro hw' _
    simp at hw'
  | reacquire hw =>
    refine ⟨hlen, hact, hsub, ?_⟩
    dsimp only
    intro hw' _
    simp at hw'

theorem reach_inv {n k : Nat} {s : PState} (h : Reach n k s) : Inv n s := by
  induction h with
  | refl => exact inv_init n k
  | tail _ hstep ih => exact inv_step ih hstep

/-- Claim C5: in every reachable state of a pool built with capacity `n`,
`active_count` never exceeds `n`, never exceeds the number of
submitted-but-not-yet-completed jobs, and a step that completes a
submission (`execute` returning) requires a worker blocked in `recv` at
that moment — the zero-capacity channel is a rendezvous, so the event
loop cannot out-run worker availability and no pending-job queue exists
in any state. -/
theorem c5_bounded_concurrency (n k : Nat) (s : PState) (h : Reach n k s) :
    s.active ≤ n
    ∧ s.active + s.completed ≤ s.submitted
    ∧ (∀ s', Step s s' → s.submitted < s'.submitted → WPc.idle ∈ s.workers) := by
  obtain ⟨hlen, hact, hsub, _⟩ := reach_inv h
  refine ⟨?_, ?_, ?_⟩
  · have hpair := @countPc_pair_le_length WPc.running WPc.dead (by decide) s.workers
    omega
  · omega
  · intro s' hstep hinc
    cases hstep with
    | execute i hw hts hidle => exact List.get?_mem hidle
    | enter i h1 => simp at hinc
    | finishLast i h1 h2 => simp at hinc
    | finishMore i h1 h2 => simp at hinc
    | jobFault i h1 => simp at hinc
    | notifyAll i h1 h2 => simp at hinc
    | callWait h1 h2 => simp at hinc
    | checkBusy h1 h2 => simp at hinc
    | checkIdle h1 h2 => simp at hinc
    | wakeSpurious h1 => simp at hinc
    | reacquire h1 => simp at hinc

/-- Witness for C5 at a concrete reachable state: the initial state of a
one-worker pool. -/
theorem c5_bounded_concurrency_witness :
    (initState 1 0).active ≤ 1
    ∧ (initState 1 0).active + (initState 1 0).completed
      ≤ (initState 1 0).submitted :=
  ⟨(c5_bounded_concurrency 1 0 (initState 1 0) (Steps.refl _)).1,
   (c5_bounded_concurrency 1 0 (initState 1 0) (Steps.refl _)).2.1⟩

/-- Claim C2 (amended): `wait_for_completion` returns only out of a state
in which `active_count = 0` (its check under the completion lock observed
zero), and no completion wakeup is lost: in every reachable state where
the waiter is blocked in `cvar.wait` with `active_count = 0`, some worker
is still between its decrement-to-zero and its `notify_all`, so the
waiter will be woken.  (As the counterexample shows, `active_count` need
not still be 0 after the return: a worker that has received a job but not
yet executed its `fetch_add` can raise the count immediately afterwards.) -/
theorem c2_wait_observes_idle (n k : Nat) (s : PState) (h : Reach n k s) :
    (∀ s', Step s s' → s'.waiter = MPc.returned →
        s.waiter = MPc.returned ∨ s.active = 0)
    ∧ (s.waiter = MPc.waiting → s.active = 0 → WPc.notifying ∈ s.workers) := by
  refine ⟨?_, ?_⟩
  · intro s' hstep hret
    cases hstep with
    | execute i h1 h2 h3 => exact Or.inl hret
    | enter i h1 => exact Or.inl hret
    | finishLast i h1 h2 => exact Or.inl hret
    | finishMore i h1 h2 => exact Or.inl hret
    | jobFault i h1 => exact Or.inl hret
    | notifyAll i h1 h2 =>
      dsimp only at hret
      by_cases hsw : s.waiter = MPc.waiting
      · rw [if_pos hsw] at hret
        simp at hret
      · rw [if_neg hsw] at hret
        exact Or.inl hret
    | callWait h1 h2 => simp at hret
    | checkBusy h1 h2 => simp at hret
    | checkIdle h1 h2 => exact Or.inr h2
    | wakeSpurious h1 => simp at hret
    | reacquire h1 => simp at hret
  · intro hw ha
    exact mem_of_countPc_pos ((reach_inv h).2.2.2 hw ha)

/-- A reachable state of a one-worker pool with one submission in which the
waiter is blocked in `cvar.wait`, `active_count = 0`, and the worker is on
its way to `notify_all`. -/
def cwaitState : PState :=
  ⟨[WPc.notifying], 0, 0, 1, 1, MPc.waiting⟩

theorem reach_cwaitState : Reach 1 1 cwaitState := by
  have h1 : Step (initState 1 1) ⟨[WPc.gotJob], 0, 0, 1, 0, MPc.submitting⟩ :=
    Step.execute (initState 1 1) 0 rfl (by decide) rfl
  have h2 : Step ⟨[WPc.gotJob], 0, 0, 1, 0, MPc.submitting⟩
      ⟨[WPc.running], 1, 0, 1, 0, MPc.submitting⟩ :=
    Step.enter _ 0 rfl
  have h3 : Step ⟨[WPc.running], 1, 0, 1, 0, MPc.submitting⟩
      ⟨[WPc.running], 1, 0, 1, 0, MPc.locked⟩ :=
    Step.callWait _ rfl rfl
  have h4 : Step ⟨[WPc.running], 1, 0, 1, 0, MPc.locked⟩
      ⟨[WPc.running], 1, 0, 1, 0, MPc.waiting⟩ :=
    Step.checkBusy _ rfl (by decide)
  have h5 : Step ⟨[WPc.running], 1, 0, 1, 0, MPc.waiting⟩ cwaitState :=
    Step.finishLast _ 0 rfl rfl
  exact Steps.tail (Steps.tail (Steps.tail (Steps.tail
    (Steps.tail (Steps.refl _) h1) h2) h3) h4) h5

/-- Witness for the amended C2 at a concrete reachable state: in
`cwaitState` the waiter is blocked with `active_count = 0` and a pending
notification exists. -/
theorem c2_wait_observes_idle_witness :
    WPc.notifying ∈ cwaitState.workers :=
  (c2_wait_observes_idle 1 1 cwaitState reach_cwaitState).2 rfl rfl

/-- A reachable state of a two-worker pool with two submissions in which
`wait_for_completion` has already returned while `active_count = 1`: the
second worker received its job before the wait but executed its
`fetch_add` only after the waiter's check read zero. -/
def c2BadState : PState :=
  ⟨[WPc.notifying, WPc.running], 1, 0, 2, 1, MPc.returned⟩

theorem reach_c2BadState : Reach 2 2 c2BadState := by
  have h1 : Step (initState 2 2)
      ⟨[WPc.gotJob, WPc.idle], 0, 1, 1, 0, MPc.submitting⟩ :=
    Step.execute (initState 2 2) 0 rfl (by decide) rfl
  have h2 : Step ⟨[WPc.gotJob, WPc.idle], 0, 1, 1, 0, MPc.submitting⟩
      ⟨[WPc.gotJob, WPc.gotJob], 0, 0, 2, 0, MPc.submitting⟩ :=
    Step.execute _ 1 rfl (by decide) rfl
  have h3 : Step ⟨[WPc.gotJob, WPc.gotJob], 0, 0, 2, 0, MPc.submitting⟩
      ⟨[WPc.gotJob, WPc.gotJob], 0, 0, 2, 0, MPc.locked⟩ :=
    Step.callWait _ rfl rfl
  have h4 : Step ⟨[WPc.gotJob, WPc.gotJob], 0, 0, 2, 0, MPc.locked⟩
      ⟨[WPc.running, WPc.gotJob], 1, 0, 2, 0, MPc.locked⟩ :=
    Step.enter _ 0 rfl
  have h5 : Step ⟨[WPc.running, WPc.gotJob], 1, 0, 2, 0, MPc.locked⟩
      ⟨[WPc.notifying, WPc.gotJob], 0, 0, 2, 1, MPc.locked⟩ :=
    Step.finishLast _ 0 rfl rfl
  have h6 : Step ⟨[WPc.notifying, WPc.gotJob], 0, 0, 2, 1, MPc.locked⟩
      ⟨[WPc.notifying, WPc.gotJob], 0, 0, 2, 1, MPc.returned⟩ :=
    Step.checkIdle _ rfl rfl
  have h7 : Step ⟨[WPc.notifying, WPc.gotJob], 0, 0, 2, 1, MPc.returned⟩
      c2BadState :=
    Step.enter _ 1 rfl
  exact Steps.tail (Steps.tail (Steps.tail (Steps.tail (Steps.tail
    (Steps.tail (Steps.tail (Steps.refl _) h1) h2) h3) h4) h5) h6) h7

/-- Counterexample to claim C2 as stated: there is an interleaving of two
submissions with the `wait_for_completion` call after which the wait has
returned and a check of `active_count` reads 1, not 0 — the second job was
received before the wait but counted only after the waiter's final check. -/
theorem c2_returns_while_active_cex :
    Reach 2 2 c2BadState
    ∧ c2BadState.waiter = MPc.returned
    ∧ c2BadState.active ≠ 0 :=
  ⟨reach_c2BadState, rfl, by decide⟩

/-- The state of a one-worker pool after its only submission's job body
panicked: the worker thread has unwound (its receive loop is gone) and
`active_count` is stuck at 1 because the `fetch_sub` was never reached. -/
def crashState : PState :=
  ⟨[WPc.dead], 1, 0, 1, 0, MPc.submitting⟩

theorem reach_crashState : Reach 1 1 crashState := by
  have h1 : Step (initState 1 1) ⟨[WPc.gotJob], 0, 0, 1, 0, MPc.submitting⟩ :=
    Step.execute (initState 1 1) 0 rfl (by decide) rfl
  have h2 : Step ⟨[WPc.gotJob], 0, 0, 1, 0, MPc.submitting⟩
      ⟨[WPc.running], 1, 0, 1, 0, MPc.submitting⟩ :=
    Step.enter _ 0 rfl
  have h3 : Step ⟨[WPc.running], 1, 0, 1, 0, MPc.submitting⟩ crashState :=
    Step.jobFault _ 0 rfl
  exact Steps.tail (Steps.tail (Steps.tail (Steps.refl _) h1) h2) h3

theorem steps_from_crash {s' : PState} (h : Steps crashState s') :
    s'.workers = [WPc.dead] ∧ s'.active = 1 ∧ s'.waiter ≠ MPc.returned := by
  induction h with
  | refl => exact ⟨rfl, rfl, by decide⟩
  | tail _ hstep ih =>
    obtain ⟨hw, ha, hm⟩ := ih
    cases hstep with
    | execute i h1 h2 h3 =>
      rw [hw] at h3
      cases i with
      | zero => simp at h3
      | succ i => simp at h3
    | enter i h1 =>
      rw [hw] at h1
      cases i with
      | zero => simp at h1
      | succ i => simp at h1
    | finishLast i h1 h2 =>
      rw [hw] at h1
      cases i with
      | zero => simp at h1
      | succ i => simp at h1
    | finishMore i h1 h2 =>
      rw [hw] at h1
      cases i with
      | zero => simp at h1
      | succ i => simp at h1
    | jobFault i h1 =>
      rw [hw] at h1
      cases i with
      | zero => simp at h1
      | succ i => simp at h1
    | notifyAll i h1 h2 =>
      rw [hw] at h1
      cases i with
      | zero => simp at h1
      | succ i => simp at h1
    | callWait h1 h2 => exact ⟨hw, ha, by simp⟩
    | checkBusy h1 h2 => exact ⟨hw, ha, by simp⟩
    | checkIdle h1 h2 => omega
    | wakeSpurious h1 => exact ⟨hw, ha, by simp⟩
    | reacquire h1 => exact ⟨hw, ha, by simp⟩

/-- Evidence for claim C4's failure on the code (evaluated at the concrete
failing run): a one-worker pool is given one job whose body panics.  The
pool reaches a state where the worker thread is dead (it does not continue
its receive loop), no job ever completed, and `active_count` is stuck at
1 — and from that state every further interleaving keeps `active_count`
at 1 and `wait_for_completion` never returns. -/
theorem c4_worker_dies_on_fault :
    Reach 1 1 crashState
    ∧ crashState.workers = [WPc.dead]
    ∧ crashState.active = 1
    ∧ crashState.completed = 0
    ∧ (∀ s', Steps crashState s' → s'.active = 1 ∧ s'.waiter ≠ MPc.returned) :=
  ⟨reach_crashState, rfl, rfl, rfl,
   fun _ h => ⟨(steps_from_crash h).2.1, (steps_from_crash h).2.2⟩⟩

end MiniNu
